import Mathlib

/-!
Verification of the lightyear networking library core against its
natural-language specification.

The definitions below are a shallow embedding of the Rust source:
* `src/shared/src/channel/receivers/ordered_reliable.rs`
* `src/shared/src/channel/receivers/sequenced_unreliable.rs`
* `src/lightyear/src/client/networking.rs`
* `src/lightyear/src/connection/local/client.rs`

Machine integers (`u16` message ids) are modelled as `Nat` with explicit
`% 65536` arithmetic.  Rust's `&mut self` methods returning `Result` are
modelled as functions returning the updated state paired with an
`Except String Unit`.  `BTreeMap<MessageId, SingleData>` is modelled as an
association list with lookup / insert-if-absent / erase helpers, and
`VecDeque<SingleData>` as a `List` (push_back appends, pop_front takes the
head).
-/

/-- Modelled from the spec: the 16-bit wrapping `MessageId` comparison
(`packet/wrapping_id.rs` is not under `src/`).  Spec §3:
"arithmetic is modular with a 32,768-wide comparison window
(a < b iff (b - a) mod 2^16 is in (0, 2^15])". -/
def wrappingLt (a b : Nat) : Bool :=
  decide (0 < (b % 65536 + 65536 - a % 65536) % 65536 ∧
          (b % 65536 + 65536 - a % 65536) % 65536 ≤ 32768)

theorem wrappingLt_irrefl (a : Nat) : wrappingLt a a = false := by
  have h : (a % 65536 + 65536 - a % 65536) % 65536 = 0 := by omega
  simp [wrappingLt, h]

theorem mod_eq_of_not_wrappingLt {a b : Nat}
    (h1 : wrappingLt a b = false) (h2 : wrappingLt b a = false) :
    a % 65536 = b % 65536 := by
  simp only [wrappingLt, decide_eq_false_iff_not, not_and, not_le] at h1 h2
  have ha : a % 65536 < 65536 := Nat.mod_lt _ (by omega)
  have hb : b % 65536 < 65536 := Nat.mod_lt _ (by omega)
  omega

theorem wrappingLt_congr_right {j mr : Nat} (h : j % 65536 = mr % 65536)
    (i : Nat) : wrappingLt i j = wrappingLt i mr := by
  simp [wrappingLt, h]

/-- `SingleData` from `packet/message.rs`: a single unfragmented message
(optional id, payload bytes). -/
structure SingleData where
  id : Option Nat
  bytes : List Nat
  deriving Repr, DecidableEq

/-- `FragmentData` from `packet/packet.rs`: one fragment of a fragmented
message (id required). -/
structure FragmentData where
  message_id : Nat
  fragment_id : Nat
  num_fragments : Nat
  bytes : List Nat
  deriving Repr, DecidableEq

/-- `MessageContainer` from `packet/message.rs`. -/
inductive MessageContainer where
  | Single (data : SingleData)
  | Fragment (data : FragmentData)
  deriving Repr, DecidableEq

/-- `MessageContainer::id()`: a `Single` may lack an id, a `Fragment`
always carries one. -/
def MessageContainer.id : MessageContainer → Option Nat
  | .Single data => data.id
  | .Fragment data => some data.message_id

/-- Association-list lookup, modelling `BTreeMap::get` / occupancy of
`BTreeMap::entry`. -/
def getAssoc {α : Type} : List (Nat × α) → Nat → Option α
  | [], _ => none
  | (k, v) :: rest, key => if k = key then some v else getAssoc rest key

/-- Association-list insert used for `btree_map::Entry::Vacant::insert`
(the caller only inserts when the key is absent). -/
def setAssoc {α : Type} : List (Nat × α) → Nat → α → List (Nat × α)
  | [], key, v => [(key, v)]
  | (k, w) :: rest, key, v =>
      if k = key then (key, v) :: rest else (k, w) :: setAssoc rest key v

/-- Association-list removal, modelling `BTreeMap::remove`. -/
def eraseAssoc {α : Type} : List (Nat × α) → Nat → List (Nat × α)
  | [], _ => []
  | (k, w) :: rest, key =>
      if k = key then rest else (k, w) :: eraseAssoc rest key

theorem mem_of_getAssoc_eq_some {α : Type} {l : List (Nat × α)} {k : Nat}
    {v : α} (h : getAssoc l k = some v) : (k, v) ∈ l := by
  induction l with
  | nil => simp [getAssoc] at h
  | cons hd tl ih =>
      obtain ⟨k', v'⟩ := hd
      by_cases hk : k' = k
      · subst hk
        simp [getAssoc] at h
        subst h
        exact List.mem_cons_self _ _
      · simp [getAssoc, hk] at h
        exact List.mem_cons_of_mem _ (ih h)

theorem mem_setAssoc {α : Type} {l : List (Nat × α)} {key k : Nat}
    {v d : α} (h : (k, d) ∈ setAssoc l key v) :
    (k, d) ∈ l ∨ (k = key ∧ d = v) := by
  induction l with
  | nil =>
      simp [setAssoc] at h
      exact Or.inr ⟨h.1, h.2⟩
  | cons hd tl ih =>
      obtain ⟨k', v'⟩ := hd
      by_cases hk : k' = key
      · subst hk
        simp [setAssoc] at h
        rcases h with ⟨h1, h2⟩ | h
        · exact Or.inr ⟨h1, h2⟩
        · exact Or.inl (List.mem_cons_of_mem _ h)
      · simp [setAssoc, hk] at h
        rcases h with ⟨h1, h2⟩ | h
        · exact Or.inl (by simp [h1, h2])
        · rcases ih h with h' | h'
          · exact Or.inl (List.mem_cons_of_mem _ h')
          · exact Or.inr h'

theorem mem_of_mem_eraseAssoc {α : Type} {l : List (Nat × α)} {key k : Nat}
    {d : α} (h : (k, d) ∈ eraseAssoc l key) : (k, d) ∈ l := by
  induction l with
  | nil => simp [eraseAssoc] at h
  | cons hd tl ih =>
      obtain ⟨k', v'⟩ := hd
      by_cases hk : k' = key
      · subst hk
        simp [eraseAssoc] at h
        exact List.mem_cons_of_mem _ h
      · simp [eraseAssoc, hk] at h
        rcases h with ⟨h1, h2⟩ | h
        · rw [h1, h2]; exact List.mem_cons_self _ _
        · exact List.mem_cons_of_mem _ (ih h)

theorem getAssoc_eraseAssoc_ne {α : Type} (l : List (Nat × α)) (key k : Nat)
    (hne : k ≠ key) : getAssoc (eraseAssoc l key) k = getAssoc l k := by
  induction l with
  | nil => simp [eraseAssoc]
  | cons hd tl ih =>
      obtain ⟨k', v'⟩ := hd
      by_cases hk : k' = key
      · simp [eraseAssoc, hk, getAssoc, Ne.symm hne]
      · by_cases hk2 : k' = k
        · simp [eraseAssoc, hk, getAssoc, hk2, hne]
        · simp [eraseAssoc, hk, getAssoc, hk2, ih]

/-- Modelled from the spec: the fragment reassembler
(`channel/receivers/fragment_receiver.rs` is not under `src/`).  Spec §4.2:
one slot per `MessageId` holding the arrived fragments; when all
`num_fragments` indices have arrived it yields one reconstructed
`SingleData` (fragments concatenated in index order) and frees the slot.
(Timeout-based garbage collection is time-driven and not exercised by
`buffer_recv`.) -/
structure FragmentReceiver where
  slots : List (Nat × List (Nat × List Nat))
  deriving Repr, DecidableEq

def FragmentReceiver.new : FragmentReceiver := ⟨[]⟩

def FragmentReceiver.receive_fragment (fr : FragmentReceiver)
    (data : FragmentData) : FragmentReceiver × Option SingleData :=
  let arrived := (getAssoc fr.slots data.message_id).getD []
  let arrived :=
    if (getAssoc arrived data.fragment_id).isSome then arrived
    else arrived ++ [(data.fragment_id, data.bytes)]
  if (List.range data.num_fragments).all
      (fun i => (getAssoc arrived i).isSome) then
    (⟨eraseAssoc fr.slots data.message_id⟩,
     some { id := some data.message_id,
            bytes := (List.range data.num_fragments).foldl
              (fun acc i => acc ++ (getAssoc arrived i).getD []) [] })
  else
    (⟨setAssoc fr.slots data.message_id arrived⟩, none)

/-- `OrderedReliableReceiver` state (`ordered_reliable.rs` lines 15-23). -/
structure OrderedReliableReceiver where
  pending_recv_message_id : Nat
  recv_message_buffer : List (Nat × SingleData)
  fragment_receiver : FragmentReceiver
  deriving Repr, DecidableEq

def OrderedReliableReceiver.new : OrderedReliableReceiver :=
  ⟨0, [], FragmentReceiver.new⟩

/-- `OrderedReliableReceiver::buffer_recv` (`ordered_reliable.rs` lines
37-59): require an id; drop ids modularly less than
`pending_recv_message_id`; otherwise insert into the buffer if the id is
not already present (fragments go through the fragment receiver first). -/
def OrderedReliableReceiver.buffer_recv (r : OrderedReliableReceiver)
    (message : MessageContainer) :
    OrderedReliableReceiver × Except String Unit :=
  match message.id with
  | none => (r, Except.error "message id not found")
  | some message_id =>
    if wrappingLt message_id r.pending_recv_message_id then (r, Except.ok ())
    else if (getAssoc r.recv_message_buffer message_id).isSome then
      (r, Except.ok ())
    else
      match message with
      | MessageContainer.Single data =>
          ({ r with recv_message_buffer :=
               setAssoc r.recv_message_buffer message_id data },
           Except.ok ())
      | MessageContainer.Fragment data =>
          let res := r.fragment_receiver.receive_fragment data
          match res.2 with
          | some single_data =>
              ({ r with
                   fragment_receiver := res.1
                   recv_message_buffer :=
                     setAssoc r.recv_message_buffer message_id single_data },
               Except.ok ())
          | none => ({ r with fragment_receiver := res.1 }, Except.ok ())

/-- `OrderedReliableReceiver::read_message` (`ordered_reliable.rs` lines
65-78): return the buffered message with id `pending_recv_message_id`
(removing it and advancing the wrapping counter), or `none`. -/
def OrderedReliableReceiver.read_message (r : OrderedReliableReceiver) :
    OrderedReliableReceiver × Option SingleData :=
  match getAssoc r.recv_message_buffer r.pending_recv_message_id with
  | none => (r, none)
  | some message =>
      ({ r with
           recv_message_buffer :=
             eraseAssoc r.recv_message_buffer r.pending_recv_message_id,
           pending_recv_message_id :=
             (r.pending_recv_message_id + 1) % 65536 },
       some message)

/-- `SequencedUnreliableReceiver` state (`sequenced_unreliable.rs` lines
13-19). -/
structure SequencedUnreliableReceiver where
  recv_message_buffer : List SingleData
  most_recent_message_id : Nat
  fragment_receiver : FragmentReceiver
  deriving Repr, DecidableEq

def SequencedUnreliableReceiver.new : SequencedUnreliableReceiver :=
  ⟨[], 0, FragmentReceiver.new⟩

/-- `SequencedUnreliableReceiver::buffer_recv` (`sequenced_unreliable.rs`
lines 33-58): require an id; drop ids modularly less than
`most_recent_message_id`; otherwise update `most_recent_message_id` if the
id is modularly greater and enqueue at the back. -/
def SequencedUnreliableReceiver.buffer_recv (r : SequencedUnreliableReceiver)
    (message : MessageContainer) :
    SequencedUnreliableReceiver × Except String Unit :=
  match message.id with
  | none => (r, Except.error "message id not found")
  | some message_id =>
    if wrappingLt message_id r.most_recent_message_id then (r, Except.ok ())
    else
      let r1 := if wrappingLt r.most_recent_message_id message_id then
                  { r with most_recent_message_id := message_id }
                else r
      match message with
      | MessageContainer.Single data =>
          ({ r1 with recv_message_buffer := r1.recv_message_buffer ++ [data] },
           Except.ok ())
      | MessageContainer.Fragment data =>
          let res := r1.fragment_receiver.receive_fragment data
          match res.2 with
          | some single_data =>
              ({ r1 with
                   fragment_receiver := res.1
                   recv_message_buffer :=
                     r1.recv_message_buffer ++ [single_data] },
               Except.ok ())
          | none => ({ r1 with fragment_receiver := res.1 }, Except.ok ())

/-- `SequencedUnreliableReceiver::read_message` (`sequenced_unreliable.rs`
lines 59-62): pop the front of the buffer. -/
def SequencedUnreliableReceiver.read_message
    (r : SequencedUnreliableReceiver) :
    SequencedUnreliableReceiver × Option SingleData :=
  match r.recv_message_buffer with
  | [] => (r, none)
  | d :: rest => ({ r with recv_message_buffer := rest }, some d)

example : wrappingLt 60000 0 = true := by decide
example : wrappingLt 0 1 = true := by decide
example : wrappingLt 1 0 = false := by decide
example : wrappingLt 0 40000 = false := by decide
example : wrappingLt 60001 0 = true := by decide

/-- A receiver-level interaction: deliver one decoded message to
`buffer_recv` (failures leave the state unchanged, as for the Rust
`&mut self` method), or have the application call `read_message`
(collecting any delivered message). -/
inductive ChannelOp where
  | buffer (m : MessageContainer)
  | read
  deriving Repr, DecidableEq

def ordStep (s : OrderedReliableReceiver × List SingleData)
    (op : ChannelOp) : OrderedReliableReceiver × List SingleData :=
  match op with
  | .buffer m => ((s.1.buffer_recv m).1, s.2)
  | .read =>
      let p := s.1.read_message
      (p.1, s.2 ++ p.2.toList)

/-- Run a sequence of interactions against a fresh
`OrderedReliableReceiver`, collecting the delivered messages in order. -/
def ordRun (ops : List ChannelOp) :
    OrderedReliableReceiver × List SingleData :=
  ops.foldl ordStep (OrderedReliableReceiver.new, [])

def seqStep (s : SequencedUnreliableReceiver × List SingleData)
    (op : ChannelOp) : SequencedUnreliableReceiver × List SingleData :=
  match op with
  | .buffer m => ((s.1.buffer_recv m).1, s.2)
  | .read =>
      let p := s.1.read_message
      (p.1, s.2 ++ p.2.toList)

/-- Run a sequence of interactions against a fresh
`SequencedUnreliableReceiver`, collecting the delivered messages in
order. -/
def seqRun (ops : List ChannelOp) :
    SequencedUnreliableReceiver × List SingleData :=
  ops.foldl seqStep (SequencedUnreliableReceiver.new, [])

def deliveredIds (l : List SingleData) : List (Option Nat) :=
  l.map SingleData.id

def c1msg0 : MessageContainer :=
  MessageContainer.Single { id := some 0, bytes := [10] }
def c1msg1 : MessageContainer :=
  MessageContainer.Single { id := some 1, bytes := [11] }
def c1stale : MessageContainer :=
  MessageContainer.Single { id := some 60000, bytes := [12] }
def c1s2 : OrderedReliableReceiver :=
  ((OrderedReliableReceiver.new.buffer_recv c1msg1).1.buffer_recv c1msg0).1

/-- Claim C1: a ReliableOrdered receiver delivers messages in strictly
increasing MessageId starting from `pending_recv_message_id = 0`:
`read_message` returns `some` only for the buffered message whose id
equals `pending_recv_message_id`; a message whose id is modularly less
than `pending_recv_message_id` is dropped with the state unchanged; and
concretely (spec scenario S1), on a fresh receiver after buffering id 1
then id 0, successive reads yield id 0, id 1, then none, while buffering
id 60000 first leaves the receiver unchanged. -/
theorem C1_ordered_reliable_in_order_delivery :
    (∀ (r : OrderedReliableReceiver) (m : SingleData),
        (r.read_message).2 = some m →
        getAssoc r.recv_message_buffer r.pending_recv_message_id = some m) ∧
    (∀ (r : OrderedReliableReceiver) (m : MessageContainer) (i : Nat),
        m.id = some i → wrappingLt i r.pending_recv_message_id = true →
        r.buffer_recv m = (r, Except.ok ())) ∧
    (OrderedReliableReceiver.new.buffer_recv c1stale =
       (OrderedReliableReceiver.new, Except.ok ())) ∧
    ((c1s2.read_message).2 = some { id := some 0, bytes := [10] }) ∧
    (((c1s2.read_message).1.read_message).2 =
       some { id := some 1, bytes := [11] }) ∧
    ((((c1s2.read_message).1.read_message).1.read_message).2 = none) := by
  refine ⟨?_, ?_, rfl, by decide, by decide, by decide⟩
  · intro r m h
    simp only [OrderedReliableReceiver.read_message] at h
    split at h
    · exact absurd h (by simp)
    · next msg hg =>
        simp only [Option.some.injEq] at h
        rw [hg, h]
  · intro r m i hid hlt
    cases m with
    | Single data =>
        simp only [MessageContainer.id] at hid
        simp [OrderedReliableReceiver.buffer_recv, MessageContainer.id,
              hid, hlt]
    | Fragment data =>
        simp only [MessageContainer.id, Option.some.injEq] at hid
        subst hid
        simp [OrderedReliableReceiver.buffer_recv, MessageContainer.id, hlt]

theorem C1_witness :
    (getAssoc c1s2.recv_message_buffer c1s2.pending_recv_message_id =
       some { id := some 0, bytes := [10] }) ∧
    (OrderedReliableReceiver.new.buffer_recv c1stale =
       (OrderedReliableReceiver.new, Except.ok ())) :=
  ⟨C1_ordered_reliable_in_order_delivery.1 c1s2
     { id := some 0, bytes := [10] } (by decide),
   C1_ordered_reliable_in_order_delivery.2.1 OrderedReliableReceiver.new
     c1stale 60000 (by decide) (by decide)⟩

def c2m60000 : MessageContainer :=
  MessageContainer.Single { id := some 60000, bytes := [20] }
def c2m1 : MessageContainer :=
  MessageContainer.Single { id := some 1, bytes := [21] }
def c2m0 : MessageContainer :=
  MessageContainer.Single { id := some 0, bytes := [22] }
def c2m2 : MessageContainer :=
  MessageContainer.Single { id := some 2, bytes := [23] }
def c2t1 : SequencedUnreliableReceiver :=
  (SequencedUnreliableReceiver.new.buffer_recv c2m1).1
def c2t2 : SequencedUnreliableReceiver := (c2t1.read_message).1
def c2t3 : SequencedUnreliableReceiver := (c2t2.buffer_recv c2m2).1

/-- Claim C2: an UnreliableSequenced receiver drops a message whose id is
modularly less than `most_recent_message_id` (buffer and
`most_recent_message_id` unchanged); otherwise it sets
`most_recent_message_id` to that id and enqueues the message at the back
of the delivery queue (stated for unfragmented messages, which are the
messages of this channel mode; ids are 16-bit as in the Rust `u16`).
Concretely (spec scenario S2): a fresh receiver drops id 60000, delivers
id 1, drops id 0, then delivers id 2. -/
theorem C2_sequenced_drop_old_else_enqueue :
    (∀ (r : SequencedUnreliableReceiver) (m : MessageContainer) (i : Nat),
        m.id = some i → wrappingLt i r.most_recent_message_id = true →
        r.buffer_recv m = (r, Except.ok ())) ∧
    (∀ (r : SequencedUnreliableReceiver) (data : SingleData) (i : Nat),
        r.most_recent_message_id < 65536 → i < 65536 →
        data.id = some i →
        wrappingLt i r.most_recent_message_id = false →
        r.buffer_recv (MessageContainer.Single data) =
          ({ r with
               most_recent_message_id := i
               recv_message_buffer := r.recv_message_buffer ++ [data] },
           Except.ok ())) ∧
    (SequencedUnreliableReceiver.new.buffer_recv c2m60000 =
       (SequencedUnreliableReceiver.new, Except.ok ())) ∧
    ((c2t1.read_message).2 = some { id := some 1, bytes := [21] }) ∧
    (c2t2.buffer_recv c2m0 = (c2t2, Except.ok ())) ∧
    ((c2t3.read_message).2 = some { id := some 2, bytes := [23] }) := by
  refine ⟨?_, ?_, rfl, by decide, rfl, by decide⟩
  · intro r m i hid hlt
    cases m with
    | Single data =>
        simp only [MessageContainer.id] at hid
        simp [SequencedUnreliableReceiver.buffer_recv, MessageContainer.id,
              hid, hlt]
    | Fragment data =>
        simp only [MessageContainer.id, Option.some.injEq] at hid
        subst hid
        simp [SequencedUnreliableReceiver.buffer_recv, MessageContainer.id,
              hlt]
  · intro r data i hr hi hid hlt
    by_cases hgt : wrappingLt r.most_recent_message_id i = true
    · simp [SequencedUnreliableReceiver.buffer_recv, MessageContainer.id,
            hid, hlt, hgt]
    · have hgt' : wrappingLt r.most_recent_message_id i = false := by
        revert hgt; cases wrappingLt r.most_recent_message_id i <;> simp
      have hmod : i % 65536 = r.most_recent_message_id % 65536 :=
        mod_eq_of_not_wrappingLt hlt hgt'
      have heq : i = r.most_recent_message_id := by
        rw [Nat.mod_eq_of_lt hi, Nat.mod_eq_of_lt hr] at hmod
        exact hmod
      subst heq
      simp [SequencedUnreliableReceiver.buffer_recv, MessageContainer.id,
            hid, hlt, hgt']

theorem C2_witness :
    (c2t2.buffer_recv c2m0 = (c2t2, Except.ok ())) ∧
    (c2t2.buffer_recv c2m2 =
       ({ c2t2 with
            most_recent_message_id := 2
            recv_message_buffer :=
              c2t2.recv_message_buffer ++ [{ id := some 2, bytes := [23] }] },
        Except.ok ())) :=
  ⟨C2_sequenced_drop_old_else_enqueue.1 c2t2 c2m0 0 (by decide) (by decide),
   C2_sequenced_drop_old_else_enqueue.2.1 c2t2
     { id := some 2, bytes := [23] } 2 (by decide) (by decide) (by decide)
     (by decide)⟩

/-- Claim C5: for both receivers, `buffer_recv` returns an error exactly
when the message carries no `MessageId`; in the error case the whole
receiver state (buffer, counters, fragment receiver) is returned
unchanged, and every message that does carry an id yields `Ok`. -/
theorem C5_buffer_recv_error_iff_no_id :
    (∀ (r : OrderedReliableReceiver) (m : MessageContainer),
        ((r.buffer_recv m).2 = Except.error "message id not found" ↔
          m.id = none)) ∧
    (∀ (r : OrderedReliableReceiver) (m : MessageContainer),
        m.id = none →
        r.buffer_recv m = (r, Except.error "message id not found")) ∧
    (∀ (r : OrderedReliableReceiver) (m : MessageContainer) (i : Nat),
        m.id = some i → (r.buffer_recv m).2 = Except.ok ()) ∧
    (∀ (r : SequencedUnreliableReceiver) (m : MessageContainer),
        ((r.buffer_recv m).2 = Except.error "message id not found" ↔
          m.id = none)) ∧
    (∀ (r : SequencedUnreliableReceiver) (m : MessageContainer),
        m.id = none →
        r.buffer_recv m = (r, Except.error "message id not found")) ∧
    (∀ (r : SequencedUnreliableReceiver) (m : MessageContainer) (i : Nat),
        m.id = some i → (r.buffer_recv m).2 = Except.ok ()) := by
  have hordOk : ∀ (r : OrderedReliableReceiver) (m : MessageContainer)
      (i : Nat), m.id = some i → (r.buffer_recv m).2 = Except.ok () := by
    intro r m i hid
    cases m with
    | Single data =>
        simp only [MessageContainer.id] at hid
        simp only [OrderedReliableReceiver.buffer_recv, hid,
                   MessageContainer.id]
        split
        · rfl
        · split
          · rfl
          · rfl
    | Fragment data =>
        simp only [OrderedReliableReceiver.buffer_recv, MessageContainer.id]
        split
        · rfl
        · split
          · rfl
          · split
            · rfl
            · rfl
  have hseqOk : ∀ (r : SequencedUnreliableReceiver) (m : MessageContainer)
      (i : Nat), m.id = some i → (r.buffer_recv m).2 = Except.ok () := by
    intro r m i hid
    cases m with
    | Single data =>
        simp only [MessageContainer.id] at hid
        simp only [SequencedUnreliableReceiver.buffer_recv, hid,
                   MessageContainer.id]
        split
        · rfl
        · rfl
    | Fragment data =>
        simp only [SequencedUnreliableReceiver.buffer_recv,
                   MessageContainer.id]
        split
        · rfl
        · split
          · rfl
          · rfl
  have hordErr : ∀ (r : OrderedReliableReceiver) (m : MessageContainer),
      m.id = none → r.buffer_recv m = (r, Except.error "message id not found") := by
    intro r m hid
    cases m with
    | Single data =>
        simp only [MessageContainer.id] at hid
        simp [OrderedReliableReceiver.buffer_recv, MessageContainer.id, hid]
    | Fragment data => simp [MessageContainer.id] at hid
  have hseqErr : ∀ (r : SequencedUnreliableReceiver) (m : MessageContainer),
      m.id = none → r.buffer_recv m = (r, Except.error "message id not found") := by
    intro r m hid
    cases m with
    | Single data =>
        simp only [MessageContainer.id] at hid
        simp [SequencedUnreliableReceiver.buffer_recv, MessageContainer.id,
              hid]
    | Fragment data => simp [MessageContainer.id] at hid
  refine ⟨?_, hordErr, hordOk, ?_, hseqErr, hseqOk⟩
  · intro r m
    constructor
    · intro h
      cases hid : m.id with
      | none => rfl
      | some i =>
          rw [hordOk r m i hid] at h
          exact absurd h (by simp)
    · intro hid
      rw [hordErr r m hid]
  · intro r m
    constructor
    · intro h
      cases hid : m.id with
      | none => rfl
      | some i =>
          rw [hseqOk r m i hid] at h
          exact absurd h (by simp)
    · intro hid
      rw [hseqErr r m hid]

theorem C5_witness :
    (OrderedReliableReceiver.new.buffer_recv
        (MessageContainer.Single { id := none, bytes := [5] }) =
      (OrderedReliableReceiver.new, Except.error "message id not found")) ∧
    ((SequencedUnreliableReceiver.new.buffer_recv
        (MessageContainer.Single { id := some 5, bytes := [5] })).2 =
      Except.ok ()) :=
  ⟨C5_buffer_recv_error_iff_no_id.2.1 OrderedReliableReceiver.new
     (MessageContainer.Single { id := none, bytes := [5] }) (by decide),
   C5_buffer_recv_error_iff_no_id.2.2.2.2.2 SequencedUnreliableReceiver.new
     (MessageContainer.Single { id := some 5, bytes := [5] }) 5 (by decide)⟩

def c8m0 : MessageContainer :=
  MessageContainer.Single { id := some 0, bytes := [30] }
def c8s : SequencedUnreliableReceiver :=
  ((SequencedUnreliableReceiver.new.buffer_recv c8m0).1.buffer_recv c8m0).1

/-- Claim C8: the SequencedUnreliableReceiver enqueues (does not drop) a
message whose id equals `most_recent_message_id`: a fresh receiver
(`most_recent_message_id = 0`) delivers a message carrying id 0, and a
duplicate copy of the most recently received id is enqueued and delivered
again rather than dropped. -/
theorem C8_sequenced_equal_id_enqueued :
    (∀ (r : SequencedUnreliableReceiver) (data : SingleData) (i : Nat),
        data.id = some i →
        i % 65536 = r.most_recent_message_id % 65536 →
        r.buffer_recv (MessageContainer.Single data) =
          ({ r with
               recv_message_buffer := r.recv_message_buffer ++ [data] },
           Except.ok ())) ∧
    (((SequencedUnreliableReceiver.new.buffer_recv c8m0).1.read_message).2 =
        some { id := some 0, bytes := [30] }) ∧
    ((c8s.read_message).2 = some { id := some 0, bytes := [30] }) ∧
    (((c8s.read_message).1.read_message).2 =
        some { id := some 0, bytes := [30] }) := by
  refine ⟨?_, by decide, by decide, by decide⟩
  intro r data i hid hmod
  have hlt : wrappingLt i r.most_recent_message_id = false := by
    rw [← wrappingLt_congr_right hmod i]
    exact wrappingLt_irrefl i
  have hgt : wrappingLt r.most_recent_message_id i = false := by
    rw [wrappingLt_congr_right hmod r.most_recent_message_id]
    exact wrappingLt_irrefl r.most_recent_message_id
  simp [SequencedUnreliableReceiver.buffer_recv, MessageContainer.id, hid,
        hlt, hgt]

theorem C8_witness :
    c8s.read_message.1.buffer_recv c8m0 =
      ({ c8s.read_message.1 with
           recv_message_buffer :=
             c8s.read_message.1.recv_message_buffer ++
               [{ id := some 0, bytes := [30] }] },
       Except.ok ()) :=
  C8_sequenced_equal_id_enqueued.1 c8s.read_message.1
    { id := some 0, bytes := [30] } 0 (by decide) (by decide)

/-- Claim C9: for the OrderedReliableReceiver, `buffer_recv` never
modifies `pending_recv_message_id`; `read_message` advances it by exactly
one (as a wrapping 16-bit counter) precisely when it returns `some`,
leaves the whole state unchanged when it returns `none`, and each `some`
removes exactly the returned message (the entry at the pending id) from
the buffer, leaving every other buffered entry in place. -/
theorem C9_ordered_read_advances_pending :
    (∀ (r : OrderedReliableReceiver) (m : MessageContainer),
        ((r.buffer_recv m).1).pending_recv_message_id =
          r.pending_recv_message_id) ∧
    (∀ (r : OrderedReliableReceiver),
        (r.read_message).2 = none → r.read_message = (r, none)) ∧
    (∀ (r : OrderedReliableReceiver) (d : SingleData),
        (r.read_message).2 = some d →
        getAssoc r.recv_message_buffer r.pending_recv_message_id = some d ∧
        ((r.read_message).1).pending_recv_message_id =
          (r.pending_recv_message_id + 1) % 65536 ∧
        ((r.read_message).1).recv_message_buffer =
          eraseAssoc r.recv_message_buffer r.pending_recv_message_id ∧
        (∀ k, k ≠ r.pending_recv_message_id →
          getAssoc ((r.read_message).1).recv_message_buffer k =
            getAssoc r.recv_message_buffer k)) := by
  refine ⟨?_, ?_, ?_⟩
  · intro r m
    cases m with
    | Single data =>
        cases hid : data.id with
        | none =>
            simp [OrderedReliableReceiver.buffer_recv, MessageContainer.id,
                  hid]
        | some i =>
            simp only [OrderedReliableReceiver.buffer_recv,
                       MessageContainer.id, hid]
            split
            · rfl
            · split
              · rfl
              · rfl
    | Fragment data =>
        simp only [OrderedReliableReceiver.buffer_recv, MessageContainer.id]
        split
        · rfl
        · split
          · rfl
          · split
            · rfl
            · rfl
  · intro r h
    simp only [OrderedReliableReceiver.read_message] at h ⊢
    split at h
    · next hg => simp only [OrderedReliableReceiver.read_message, hg]
    · exact absurd h (by simp)
  · intro r d h
    simp only [OrderedReliableReceiver.read_message] at h ⊢
    split at h
    · exact absurd h (by simp)
    · next msg hg =>
        simp only [Option.some.injEq] at h
        subst h
        simp only [OrderedReliableReceiver.read_message, hg]
        refine ⟨trivial, trivial, trivial, ?_⟩
        intro k hk
        exact getAssoc_eraseAssoc_ne _ _ _ hk

def c9r : OrderedReliableReceiver :=
  ⟨0, [(0, { id := some 0, bytes := [40] }),
       (1, { id := some 1, bytes := [41] })], FragmentReceiver.new⟩

theorem C9_witness :
    ((c9r.buffer_recv c1stale).1).pending_recv_message_id =
        c9r.pending_recv_message_id ∧
    getAssoc c9r.recv_message_buffer c9r.pending_recv_message_id =
        some { id := some 0, bytes := [40] } ∧
    ((c9r.read_message).1).pending_recv_message_id = 1 :=
  ⟨C9_ordered_read_advances_pending.1 c9r c1stale,
   (C9_ordered_read_advances_pending.2.2 c9r
      { id := some 0, bytes := [40] } (by decide)).1,
   (C9_ordered_read_advances_pending.2.2 c9r
      { id := some 0, bytes := [40] } (by decide)).2.1⟩

/-- Lift the wrapping comparison to the optional ids carried by delivered
messages. -/
def oLt : Option Nat → Option Nat → Bool
  | some a, some b => wrappingLt a b
  | _, _ => false

/-- Adjacent-pairs monotonicity of a delivery sequence: no message is
modularly older than the one delivered immediately before it. -/
def noOlderChain : List SingleData → Bool
  | a :: b :: rest => !(oLt b.id a.id) && noOlderChain (b :: rest)
  | _ => true

def lastElem {α : Type} : List α → Option α
  | [] => none
  | [a] => some a
  | _ :: b :: rest => lastElem (b :: rest)

/-- An interaction sequence that never feeds a fragment to the receiver. -/
def allSingles : List ChannelOp → Bool
  | [] => true
  | ChannelOp.buffer (MessageContainer.Single _) :: rest => allSingles rest
  | ChannelOp.buffer (MessageContainer.Fragment _) :: _ => false
  | ChannelOp.read :: rest => allSingles rest

theorem lastElem_append_singleton {α : Type} (l : List α) (x : α) :
    lastElem (l ++ [x]) = some x := by
  induction l with
  | nil => rfl
  | cons a t ih =>
      cases ht : t ++ [x] with
      | nil => exact absurd ht (by simp)
      | cons b rest =>
          have hshape : (a :: t) ++ [x] = a :: b :: rest := by simp [ht]
          rw [hshape,
              show lastElem (a :: b :: rest) = lastElem (b :: rest) from rfl,
              ← ht, ih]

theorem noOlderChain_prefix (l1 l2 : List SingleData)
    (h : noOlderChain (l1 ++ l2) = true) : noOlderChain l1 = true := by
  induction l1 with
  | nil => rfl
  | cons a t ih =>
      cases t with
      | nil => rfl
      | cons b rest =>
          have h' : noOlderChain (a :: b :: (rest ++ l2)) = true := by
            simpa using h
          simp only [noOlderChain, Bool.and_eq_true, Bool.not_eq_true'] at h'
          have h2 := ih (by simpa using h'.2)
          simp only [noOlderChain, Bool.and_eq_true, Bool.not_eq_true']
          exact ⟨h'.1, h2⟩

theorem noOlderChain_snoc (l : List SingleData) (x : SingleData) :
    noOlderChain l = true →
    (∀ m, lastElem l = some m → oLt x.id m.id = false) →
    noOlderChain (l ++ [x]) = true := by
  induction l with
  | nil => intro _ _; rfl
  | cons a t ih =>
      intro hchain hlast
      cases t with
      | nil =>
          have hx := hlast a rfl
          simp [noOlderChain, hx]
      | cons b rest =>
          simp only [noOlderChain, Bool.and_eq_true, Bool.not_eq_true']
            at hchain
          have hlast' : ∀ m, lastElem (b :: rest) = some m →
              oLt x.id m.id = false := fun m hm => hlast m hm
          have hrec := ih hchain.2 hlast'
          simp only [List.cons_append, noOlderChain, Bool.and_eq_true,
                     Bool.not_eq_true']
          exact ⟨hchain.1, by simpa using hrec⟩

/-- Invariant tying the sequenced receiver state to its delivery history:
the already-delivered messages followed by the still-buffered ones form a
chain in which no message is modularly older than its predecessor, and the
last element of that combined list (the most recently enqueued message)
carries an id congruent to `most_recent_message_id` mod 2^16. -/
def seqInv (s : SequencedUnreliableReceiver × List SingleData) : Prop :=
  noOlderChain (s.2 ++ s.1.recv_message_buffer) = true ∧
  ∀ m, lastElem (s.2 ++ s.1.recv_message_buffer) = some m →
    ∃ j, m.id = some j ∧ j % 65536 = s.1.most_recent_message_id % 65536

theorem seqInv_init : seqInv (SequencedUnreliableReceiver.new, []) := by
  constructor
  · rfl
  · intro m hm
    exact absurd hm (by simp [SequencedUnreliableReceiver.new, lastElem])

theorem seqInv_step (r : SequencedUnreliableReceiver)
    (delivered : List SingleData) (op : ChannelOp)
    (hsingle : ∀ f, op ≠ ChannelOp.buffer (MessageContainer.Fragment f))
    (h : seqInv (r, delivered)) : seqInv (seqStep (r, delivered) op) := by
  cases op with
  | read =>
      obtain ⟨buf, mr, fr⟩ := r
      cases buf with
      | nil =>
          simpa [seqInv, seqStep, SequencedUnreliableReceiver.read_message]
            using h
      | cons d rest =>
          obtain ⟨hchain, hlastm⟩ := h
          constructor
          · simpa [seqStep, SequencedUnreliableReceiver.read_message,
                   List.append_assoc] using hchain
          · intro m hm
            refine hlastm m ?_
            simpa [seqStep, SequencedUnreliableReceiver.read_message,
                   List.append_assoc] using hm
  | buffer msg =>
      cases msg with
      | Fragment f => exact absurd rfl (hsingle f)
      | Single data =>
          cases hid : data.id with
          | none =>
              have hstep :
                  seqStep (r, delivered)
                    (ChannelOp.buffer (MessageContainer.Single data)) =
                    (r, delivered) := by
                simp [seqStep, SequencedUnreliableReceiver.buffer_recv,
                      MessageContainer.id, hid]
              rw [hstep]; exact h
          | some i =>
              by_cases hlt : wrappingLt i r.most_recent_message_id = true
              · have hstep :
                    seqStep (r, delivered)
                      (ChannelOp.buffer (MessageContainer.Single data)) =
                      (r, delivered) := by
                  simp [seqStep, SequencedUnreliableReceiver.buffer_recv,
                        MessageContainer.id, hid, hlt]
                rw [hstep]; exact h
              · have hlt' : wrappingLt i r.most_recent_message_id = false := by
                  revert hlt
                  cases wrappingLt i r.most_recent_message_id <;> simp
                obtain ⟨hchain, hlastm⟩ := h
                have hchainNew :
                    noOlderChain
                      ((delivered ++ r.recv_message_buffer) ++ [data]) =
                      true := by
                  refine noOlderChain_snoc _ _ hchain ?_
                  intro m hm
                  obtain ⟨j, hj1, hj2⟩ := hlastm m hm
                  rw [hid, hj1]
                  show wrappingLt i j = false
                  rw [wrappingLt_congr_right hj2 i]
                  exact hlt'
                by_cases hgt : wrappingLt r.most_recent_message_id i = true
                · have hstep :
                      seqStep (r, delivered)
                        (ChannelOp.buffer (MessageContainer.Single data)) =
                        ({ r with
                             most_recent_message_id := i
                             recv_message_buffer :=
                               r.recv_message_buffer ++ [data] },
                         delivered) := by
                    simp [seqStep, SequencedUnreliableReceiver.buffer_recv,
                          MessageContainer.id, hid, hlt', hgt]
                  rw [hstep]
                  constructor
                  · show noOlderChain
                        (delivered ++ (r.recv_message_buffer ++ [data])) =
                        true
                    rw [← List.append_assoc]
                    exact hchainNew
                  · intro m hm
                    have hm' :
                        lastElem
                          ((delivered ++ r.recv_message_buffer) ++ [data]) =
                          some m := by
                      rw [List.append_assoc]
                      exact hm
                    rw [lastElem_append_singleton] at hm'
                    obtain rfl : data = m := by injection hm'
                    exact ⟨i, hid, rfl⟩
                · have hgt' :
                      wrappingLt r.most_recent_message_id i = false := by
                    revert hgt
                    cases wrappingLt r.most_recent_message_id i <;> simp
                  have hmod : i % 65536 = r.most_recent_message_id % 65536 :=
                    mod_eq_of_not_wrappingLt hlt' hgt'
                  have hstep :
                      seqStep (r, delivered)
                        (ChannelOp.buffer (MessageContainer.Single data)) =
                        ({ r with
                             recv_message_buffer :=
                               r.recv_message_buffer ++ [data] },
                         delivered) := by
                    simp [seqStep, SequencedUnreliableReceiver.buffer_recv,
                          MessageContainer.id, hid, hlt', hgt']
                  rw [hstep]
                  constructor
                  · show noOlderChain
                        (delivered ++ (r.recv_message_buffer ++ [data])) =
                        true
                    rw [← List.append_assoc]
                    exact hchainNew
                  · intro m hm
                    have hm' :
                        lastElem
                          ((delivered ++ r.recv_message_buffer) ++ [data]) =
                          some m := by
                      rw [List.append_assoc]
                      exact hm
                    rw [lastElem_append_singleton] at hm'
                    obtain rfl : data = m := by injection hm'
                    exact ⟨i, hid, hmod⟩

theorem seqInv_foldl (ops : List ChannelOp) :
    ∀ s : SequencedUnreliableReceiver × List SingleData,
      allSingles ops = true → seqInv s →
      seqInv (ops.foldl seqStep s) := by
  induction ops with
  | nil => intro s _ h; exact h
  | cons op rest ih =>
      intro s hall h
      have hallrest : allSingles rest = true := by
        cases op with
        | read => simpa [allSingles] using hall
        | buffer m =>
            cases m with
            | Single d => simpa [allSingles] using hall
            | Fragment f => simp [allSingles] at hall
      have hop : ∀ f, op ≠ ChannelOp.buffer (MessageContainer.Fragment f) := by
        intro f heq
        subst heq
        simp [allSingles] at hall
      obtain ⟨r, delivered⟩ := s
      exact ih _ hallrest (seqInv_step r delivered op hop h)

def c3dupOps : List ChannelOp :=
  [ChannelOp.buffer (MessageContainer.Single { id := some 0, bytes := [50] }),
   ChannelOp.buffer (MessageContainer.Single { id := some 0, bytes := [51] }),
   ChannelOp.read, ChannelOp.read]

def c3wrapOps : List ChannelOp :=
  [ChannelOp.buffer (MessageContainer.Single { id := some 0, bytes := [52] }),
   ChannelOp.buffer
     (MessageContainer.Single { id := some 20000, bytes := [53] }),
   ChannelOp.buffer
     (MessageContainer.Single { id := some 40000, bytes := [54] }),
   ChannelOp.read, ChannelOp.read, ChannelOp.read]

def c3fragOps : List ChannelOp :=
  [ChannelOp.buffer (MessageContainer.Single { id := some 0, bytes := [55] }),
   ChannelOp.buffer (MessageContainer.Fragment
     { message_id := 30000, fragment_id := 0, num_fragments := 2,
       bytes := [56] }),
   ChannelOp.buffer (MessageContainer.Fragment
     { message_id := 60000, fragment_id := 0, num_fragments := 2,
       bytes := [57] }),
   ChannelOp.buffer
     (MessageContainer.Single { id := some 60001, bytes := [58] }),
   ChannelOp.read, ChannelOp.read]

/-- Counterexample to claim C3 as stated.  Three concrete runs of the
SequencedUnreliableReceiver refute "ids of successively delivered
messages are strictly increasing": (1) a duplicate of the most recent id
is delivered twice (0 then 0, and 0 < 0 is false); (2) across more than
half the id space the modular comparison wraps, so for the delivered
sequence 0, 20000, 40000 the first and a later message compare as
0 < 40000 = false; (3) with incomplete fragments, `most_recent_message_id`
advances without any enqueue, after which a message (id 60001) that is
modularly OLDER than an earlier delivered one (id 0) is still delivered. -/
theorem C3_counterexample :
    (deliveredIds (seqRun c3dupOps).2 = [some 0, some 0] ∧
       wrappingLt 0 0 = false) ∧
    (deliveredIds (seqRun c3wrapOps).2 =
       [some 0, some 20000, some 40000] ∧
       wrappingLt 0 40000 = false) ∧
    (deliveredIds (seqRun c3fragOps).2 = [some 0, some 60001] ∧
       wrappingLt 60001 0 = true) := by
  refine ⟨⟨?_, by decide⟩, ⟨?_, by decide⟩, ⟨?_, by decide⟩⟩ <;> decide

/-- Claim C3 (amended): for every sequence of `buffer_recv`/`read_message`
calls that feeds only unfragmented (`Single`) messages to an
UnreliableSequenced receiver, the ids of successively delivered messages
are adjacent-wise monotone non-strictly: a delivered message is never
modularly less than the message delivered immediately before it.
(Strictness fails because a duplicate of the most recent id is delivered
again; comparisons between non-adjacent deliveries can wrap around the
16-bit id space; and an incomplete fragment advances
`most_recent_message_id` without enqueuing, which can break even this
guarantee — hence the restriction to unfragmented messages.) -/
theorem C3_sequenced_monotone_adjacent (ops : List ChannelOp)
    (hall : allSingles ops = true) :
    noOlderChain (seqRun ops).2 = true := by
  have h := seqInv_foldl ops (SequencedUnreliableReceiver.new, []) hall
    seqInv_init
  exact noOlderChain_prefix _ _ h.1

theorem C3_witness :
    allSingles c3dupOps = true ∧
    noOlderChain (seqRun c3dupOps).2 = true :=
  ⟨by decide, C3_sequenced_monotone_adjacent c3dupOps (by decide)⟩

theorem receive_fragment_id (fr : FragmentReceiver) (data : FragmentData)
    {sd : SingleData}
    (h : (fr.receive_fragment data).2 = some sd) :
    sd.id = some data.message_id := by
  dsimp only [FragmentReceiver.receive_fragment] at h
  split at h <;> split at h
  · injection h with h2
    rw [← h2]
  · exact absurd h (by simp)
  · injection h with h2
    rw [← h2]
  · exact absurd h (by simp)

/-- Invariant characterising the ordered receiver's delivery history:
`pending_recv_message_id` counts the deliveries so far (mod 2^16), the
delivered ids are exactly 0, 1, 2, ... reduced mod 2^16, and every
buffered entry is keyed by its own message id. -/
def ordInv (s : OrderedReliableReceiver × List SingleData) : Prop :=
  s.1.pending_recv_message_id = s.2.length % 65536 ∧
  deliveredIds s.2 =
    (List.range s.2.length).map (fun k => some (k % 65536)) ∧
  ∀ k d, (k, d) ∈ s.1.recv_message_buffer → d.id = some k

theorem ordInv_init : ordInv (OrderedReliableReceiver.new, []) := by
  refine ⟨rfl, rfl, ?_⟩
  intro k d h
  simp [OrderedReliableReceiver.new] at h


theorem ordInv_step (r : OrderedReliableReceiver)
    (delivered : List SingleData) (op : ChannelOp)
    (h : ordInv (r, delivered)) : ordInv (ordStep (r, delivered) op) := by
  obtain ⟨hpend, hids, hbuf⟩ := h
  replace hpend : r.pending_recv_message_id = delivered.length % 65536 :=
    hpend
  replace hids : deliveredIds delivered =
      (List.range delivered.length).map (fun k => some (k % 65536)) := hids
  replace hbuf : ∀ k d, (k, d) ∈ r.recv_message_buffer → d.id = some k :=
    hbuf
  cases op with
  | read =>
      cases hg : getAssoc r.recv_message_buffer r.pending_recv_message_id with
      | none =>
          have hstep : ordStep (r, delivered) ChannelOp.read =
              (r, delivered) := by
            simp [ordStep, OrderedReliableReceiver.read_message, hg]
          rw [hstep]
          exact ⟨hpend, hids, hbuf⟩
      | some d =>
          have hstep : ordStep (r, delivered) ChannelOp.read =
              ({ r with
                   recv_message_buffer :=
                     eraseAssoc r.recv_message_buffer
                       r.pending_recv_message_id
                   pending_recv_message_id :=
                     (r.pending_recv_message_id + 1) % 65536 },
               delivered ++ [d]) := by
            simp [ordStep, OrderedReliableReceiver.read_message, hg]
          rw [hstep]
          have hd : d.id = some r.pending_recv_message_id :=
            hbuf _ _ (mem_of_getAssoc_eq_some hg)
          refine ⟨?_, ?_, ?_⟩
          · show (r.pending_recv_message_id + 1) % 65536 =
              (delivered ++ [d]).length % 65536
            rw [hpend]
            simp [Nat.mod_add_mod]
          · show deliveredIds (delivered ++ [d]) =
              (List.range (delivered ++ [d]).length).map
                (fun k => some (k % 65536))
            have hlen : (delivered ++ [d]).length = delivered.length + 1 := by
              simp
            simp only [deliveredIds] at hids ⊢
            rw [List.map_append, hids, hlen, List.range_succ,
                List.map_append]
            simp [hd, hpend]
          · intro k dd hm
            exact hbuf k dd (mem_of_mem_eraseAssoc hm)
  | buffer msg =>
      have hpend2 : ((r.buffer_recv msg).1).pending_recv_message_id =
          r.pending_recv_message_id := by
        cases msg with
        | Single data =>
            cases hid : data.id with
            | none =>
                simp [OrderedReliableReceiver.buffer_recv,
                      MessageContainer.id, hid]
            | some i =>
                simp only [OrderedReliableReceiver.buffer_recv,
                           MessageContainer.id, hid]
                split
                · rfl
                · split
                  · rfl
                  · rfl
        | Fragment data =>
            simp only [OrderedReliableReceiver.buffer_recv,
                       MessageContainer.id]
            split
            · rfl
            · split
              · rfl
              · split
                · rfl
                · rfl
      have hbuf2 : ∀ k d,
          (k, d) ∈ ((r.buffer_recv msg).1).recv_message_buffer →
          d.id = some k := by
        cases msg with
        | Single data =>
            cases hid : data.id with
            | none =>
                intro k d hm
                refine hbuf k d ?_
                simpa [OrderedReliableReceiver.buffer_recv,
                       MessageContainer.id, hid] using hm
            | some i =>
                intro k d hm
                simp only [OrderedReliableReceiver.buffer_recv,
                           MessageContainer.id, hid] at hm
                split at hm
                · exact hbuf k d hm
                · split at hm
                  · exact hbuf k d hm
                  · rcases mem_setAssoc hm with h' | ⟨hk, hdd⟩
                    · exact hbuf k d h'
                    · subst hk; subst hdd
                      exact hid
        | Fragment data =>
            intro k d hm
            simp only [OrderedReliableReceiver.buffer_recv,
                       MessageContainer.id] at hm
            split at hm
            · exact hbuf k d hm
            · split at hm
              · exact hbuf k d hm
              · split at hm
                · rename_i sd hfrag
                  rcases mem_setAssoc hm with h' | ⟨hk, hdd⟩
                  · exact hbuf k d h'
                  · subst hk; subst hdd
                    exact receive_fragment_id r.fragment_receiver data hfrag
                · exact hbuf k d hm
      refine ⟨?_, hids, hbuf2⟩
      show ((r.buffer_recv msg).1).pending_recv_message_id =
        delivered.length % 65536
      rw [hpend2, hpend]

theorem ordInv_foldl (ops : List ChannelOp) :
    ∀ s : OrderedReliableReceiver × List SingleData,
      ordInv s → ordInv (ops.foldl ordStep s) := by
  induction ops with
  | nil => intro s h; exact h
  | cons op rest ih =>
      intro s h
      obtain ⟨r, delivered⟩ := s
      exact ih _ (ordInv_step r delivered op h)

/-- An adversarial interaction sequence that walks the ordered receiver
around the whole 16-bit id space: starting at id `p`, repeat `n` times
"buffer the message the receiver is waiting for, then read it". -/
def cycleOps : Nat → Nat → List ChannelOp
  | _, 0 => []
  | p, Nat.succ n =>
      ChannelOp.buffer (MessageContainer.Single { id := some p, bytes := [] })
        :: ChannelOp.read :: cycleOps ((p + 1) % 65536) n

def cycleMsgs : Nat → Nat → List SingleData
  | _, 0 => []
  | p, Nat.succ n =>
      { id := some p, bytes := [] } :: cycleMsgs ((p + 1) % 65536) n

theorem cycleMsgs_length (n : Nat) : ∀ p, (cycleMsgs p n).length = n := by
  induction n with
  | zero => intro p; rfl
  | succ n ih => intro p; simp [cycleMsgs, ih]

theorem cycle_foldl (n : Nat) :
    ∀ (p : Nat) (fr : FragmentReceiver) (acc : List SingleData),
      p < 65536 →
      List.foldl ordStep
          ((⟨p, [], fr⟩ : OrderedReliableReceiver), acc) (cycleOps p n) =
        ((⟨(p + n) % 65536, [], fr⟩ : OrderedReliableReceiver),
         acc ++ cycleMsgs p n) := by
  induction n with
  | zero =>
      intro p fr acc hp
      simp [cycleOps, cycleMsgs, Nat.mod_eq_of_lt hp]
  | succ n ih =>
      intro p fr acc hp
      have hb : ordStep ((⟨p, [], fr⟩ : OrderedReliableReceiver), acc)
          (ChannelOp.buffer
            (MessageContainer.Single { id := some p, bytes := [] })) =
          ((⟨p, [(p, { id := some p, bytes := [] })], fr⟩ :
              OrderedReliableReceiver), acc) := by
        simp [ordStep, OrderedReliableReceiver.buffer_recv,
              MessageContainer.id, wrappingLt_irrefl, getAssoc, setAssoc]
      have hr : ordStep
          ((⟨p, [(p, { id := some p, bytes := [] })], fr⟩ :
              OrderedReliableReceiver), acc) ChannelOp.read =
          ((⟨(p + 1) % 65536, [], fr⟩ : OrderedReliableReceiver),
           acc ++ [{ id := some p, bytes := [] }]) := by
        simp [ordStep, OrderedReliableReceiver.read_message, getAssoc,
              eraseAssoc]
      rw [show cycleOps p (n + 1) =
            ChannelOp.buffer
              (MessageContainer.Single { id := some p, bytes := [] })
              :: ChannelOp.read :: cycleOps ((p + 1) % 65536) n from rfl,
          List.foldl_cons, List.foldl_cons, hb, hr,
          ih ((p + 1) % 65536) fr _ (Nat.mod_lt _ (by omega))]
      have harith : ((p + 1) % 65536 + n) % 65536 = (p + (n + 1)) % 65536 := by
        rw [Nat.mod_add_mod]
        congr 1
        omega
      rw [harith]
      have hlist : (acc ++ [({ id := some p, bytes := [] } : SingleData)]) ++
          cycleMsgs ((p + 1) % 65536) n = acc ++ cycleMsgs p (n + 1) := by
        rw [show cycleMsgs p (n + 1) =
              { id := some p, bytes := [] } :: cycleMsgs ((p + 1) % 65536) n
            from rfl]
        simp
      rw [hlist]

/-- Counterexample to claim C4 as stated: the 16-bit id counter wraps.
Walking an ordered reliable receiver around the whole id space
(buffer the awaited id, read, 65537 times) delivers 65537 messages whose
id list is NOT duplicate-free: the copy of id 0 buffered after the wrap is
not dropped by the `pending_recv_message_id` check but delivered a second
time. -/
theorem C4_counterexample :
    (ordRun (cycleOps 0 65537)).2.length = 65537 ∧
    ¬ (deliveredIds (ordRun (cycleOps 0 65537)).2).Nodup := by
  have hrun : ordRun (cycleOps 0 65537) =
      ((⟨(0 + 65537) % 65536, [], FragmentReceiver.new⟩ :
          OrderedReliableReceiver), [] ++ cycleMsgs 0 65537) :=
    cycle_foldl 65537 0 FragmentReceiver.new [] (by omega)
  have hlen : (ordRun (cycleOps 0 65537)).2.length = 65537 := by
    rw [hrun]
    simp [cycleMsgs_length]
  refine ⟨hlen, ?_⟩
  intro hnodup
  have hids : deliveredIds (ordRun (cycleOps 0 65537)).2 =
      (List.range 65537).map (fun k => some (k % 65536)) := by
    have h2 := (ordInv_foldl (cycleOps 0 65537) _ ordInv_init).2.1
    rw [show (List.foldl ordStep (OrderedReliableReceiver.new, [])
          (cycleOps 0 65537)) = ordRun (cycleOps 0 65537) from rfl] at h2
    rw [hlen] at h2
    exact h2
  rw [hids] at hnodup
  have hsplit : (List.range 65537).map (fun k => some (k % 65536)) =
      (List.range 65536).map (fun k => some (k % 65536)) ++
        [some (0 : Nat)] := by
    rw [show (65537 : Nat) = 65536 + 1 from rfl, List.range_succ]
    simp
  rw [hsplit, List.nodup_append] at hnodup
  have hmem : (some (0 : Nat)) ∈
      (List.range 65536).map (fun k => some (k % 65536)) := by
    refine List.mem_map.mpr ⟨0, ?_, rfl⟩
    exact List.mem_range.mpr (by omega)
  exact hnodup.2.2 hmem (by simp)

def c4m0 : MessageContainer :=
  MessageContainer.Single { id := some 0, bytes := [60] }
def c4dup : OrderedReliableReceiver :=
  ⟨0, [(5, { id := some 5, bytes := [61] })], FragmentReceiver.new⟩

/-- Claim C4 (amended): on an ordered reliable channel each MessageId is
delivered at most once as long as the run delivers at most 2^16 messages
(one full cycle of the 16-bit id space): in any such sequence of
`buffer_recv`/`read_message` calls the delivered ids are pairwise
distinct — duplicates arriving while the id is buffered are ignored (the
occupied-entry check) and copies of already-delivered ids are dropped by
the `pending_recv_message_id` check.  Once more than 2^16 messages are
delivered the wrapping counter necessarily reuses ids
(see the counterexample). -/
theorem C4_ordered_no_duplicate_delivery :
    (∀ ops : List ChannelOp, (ordRun ops).2.length ≤ 65536 →
        (deliveredIds (ordRun ops).2).Nodup) ∧
    (∀ (r : OrderedReliableReceiver) (m : MessageContainer) (i : Nat),
        m.id = some i →
        (getAssoc r.recv_message_buffer i).isSome = true →
        r.buffer_recv m = (r, Except.ok ())) := by
  constructor
  · intro ops hlen
    have hinv := ordInv_foldl ops _ ordInv_init
    have hids := hinv.2.1
    rw [show (List.foldl ordStep (OrderedReliableReceiver.new, []) ops) =
          ordRun ops from rfl] at hids
    rw [hids]
    refine List.Nodup.map_on ?_ (List.nodup_range _)
    intro x hx y hy hxy
    have hx' : x < 65536 := lt_of_lt_of_le (List.mem_range.mp hx) hlen
    have hy' : y < 65536 := lt_of_lt_of_le (List.mem_range.mp hy) hlen
    injection hxy with hxy'
    rw [Nat.mod_eq_of_lt hx', Nat.mod_eq_of_lt hy'] at hxy'
    exact hxy'
  · intro r m i hid hocc
    cases m with
    | Single data =>
        simp only [MessageContainer.id] at hid
        simp only [OrderedReliableReceiver.buffer_recv,
                   MessageContainer.id, hid]
        split
        · rfl
        · simp only [hocc, if_true]
    | Fragment data =>
        simp only [MessageContainer.id, Option.some.injEq] at hid
        subst hid
        simp only [OrderedReliableReceiver.buffer_recv, MessageContainer.id]
        split
        · rfl
        · simp only [hocc, if_true]

theorem C4_witness :
    (deliveredIds (ordRun [ChannelOp.buffer c4m0, ChannelOp.read]).2).Nodup ∧
    c4dup.buffer_recv
        (MessageContainer.Single { id := some 5, bytes := [62] }) =
      (c4dup, Except.ok ()) :=
  ⟨C4_ordered_no_duplicate_delivery.1 _ (by decide),
   C4_ordered_no_duplicate_delivery.2 c4dup
     (MessageContainer.Single { id := some 5, bytes := [62] }) 5
     (by decide) (by decide)⟩

/-- `NetworkingState` (networking.rs lines 281-290). -/
inductive NetworkingState where
  | Disconnected
  | Connecting
  | Connected
  deriving Repr, DecidableEq

/-- `ClientId` from the prelude: netcode, Steam, or local in-process id. -/
inductive ClientId where
  | Netcode (id : Nat)
  | Steam (id : Nat)
  | Local (id : Nat)
  deriving Repr, DecidableEq

/-- Decoded packet bytes (opaque for the local client, whose `recv` never
produces one). -/
def Packet : Type := List Nat

/-- The local (in-process) client of `connection/local/client.rs`
(lines 10-23). -/
structure LocalClient where
  id : Nat
  is_connected : Bool
  deriving Repr, DecidableEq

def LocalClient.new (id : Nat) : LocalClient := ⟨id, false⟩

/-- `NetClient::connect` for the local client (lines 26-29). -/
def LocalClient.connect (c : LocalClient) : LocalClient × Except String Unit :=
  ({ c with is_connected := true }, Except.ok ())

/-- `NetClient::disconnect` for the local client (lines 31-34). -/
def LocalClient.disconnect (c : LocalClient) :
    LocalClient × Except String Unit :=
  ({ c with is_connected := false }, Except.ok ())

/-- `NetClient::state` for the local client (lines 36-42). -/
def LocalClient.state (c : LocalClient) : NetworkingState :=
  if c.is_connected then NetworkingState.Connected
  else NetworkingState.Disconnected

/-- `NetClient::try_update` for the local client (lines 44-46); the f64
delta is unused by the implementation, modelled as a `Nat` tick count. -/
def LocalClient.try_update (c : LocalClient) (_delta_ms : Nat) :
    LocalClient × Except String Unit :=
  (c, Except.ok ())

/-- `NetClient::recv` for the local client (lines 48-50). -/
def LocalClient.recv (c : LocalClient) : LocalClient × Option Packet :=
  (c, none)

/-- `NetClient::send` for the local client (lines 52-54). -/
def LocalClient.send (c : LocalClient) (_buf : List Nat) :
    LocalClient × Except String Unit :=
  (c, Except.ok ())

/-- `NetClient::id` for the local client (lines 56-58). -/
def LocalClient.client_id (c : LocalClient) : ClientId :=
  ClientId.Local c.id

/-- One call against the local client's `NetClient` interface. -/
inductive LOp where
  | connect
  | disconnect
  | try_update (delta_ms : Nat)
  | send (buf : List Nat)
  | recv
  deriving Repr, DecidableEq

def lstep (c : LocalClient) (op : LOp) : LocalClient :=
  match op with
  | LOp.connect => (c.connect).1
  | LOp.disconnect => (c.disconnect).1
  | LOp.try_update d => (c.try_update d).1
  | LOp.send buf => (c.send buf).1
  | LOp.recv => (c.recv).1

def runLocal (c : LocalClient) (ops : List LOp) : LocalClient :=
  ops.foldl lstep c

/-- The most recent of the connect/disconnect calls in a call sequence:
`some true` if it was `connect`, `some false` if `disconnect`, `none` if
neither occurs. -/
def lastConnDisc : List LOp → Option Bool
  | [] => none
  | op :: rest =>
    match lastConnDisc rest with
    | some b => some b
    | none =>
      match op with
      | LOp.connect => some true
      | LOp.disconnect => some false
      | _ => none

theorem runLocal_is_connected (ops : List LOp) :
    ∀ c : LocalClient,
      (runLocal c ops).is_connected =
        (lastConnDisc ops).getD c.is_connected := by
  induction ops with
  | nil => intro c; rfl
  | cons op rest ih =>
      intro c
      rw [show runLocal c (op :: rest) = runLocal (lstep c op) rest from rfl,
          ih]
      cases h : lastConnDisc rest with
      | some b => simp [lastConnDisc, h]
      | none =>
          cases op <;>
            simp [lastConnDisc, h, lstep, LocalClient.connect,
                  LocalClient.disconnect, LocalClient.try_update,
                  LocalClient.send, LocalClient.recv]

theorem runLocal_id (ops : List LOp) :
    ∀ c : LocalClient, (runLocal c ops).id = c.id := by
  induction ops with
  | nil => intro c; rfl
  | cons op rest ih =>
      intro c
      rw [show runLocal c (op :: rest) = runLocal (lstep c op) rest from rfl,
          ih]
      cases op <;> rfl

/-- Claim C10: for the local (in-process) `NetClient` implementation,
`state()` is `Connected` iff the most recent of the `connect`/`disconnect`
calls was `connect` (initially `Disconnected`, and `Connecting` is never
observed); `connect`, `disconnect`, `try_update` and `send` always return
`Ok`; `recv` always returns `none`; and `id()` is always
`ClientId::Local` of the id the client was constructed with. -/
theorem C10_local_client_behavior :
    (∀ i : Nat, (LocalClient.new i).state = NetworkingState.Disconnected) ∧
    (∀ (i : Nat) (ops : List LOp),
        ((runLocal (LocalClient.new i) ops).state =
            NetworkingState.Connected ↔ lastConnDisc ops = some true)) ∧
    (∀ (i : Nat) (ops : List LOp),
        (runLocal (LocalClient.new i) ops).state ≠
          NetworkingState.Connecting) ∧
    (∀ (i : Nat) (ops : List LOp),
        (runLocal (LocalClient.new i) ops).client_id = ClientId.Local i) ∧
    (∀ c : LocalClient, (c.connect).2 = Except.ok ()) ∧
    (∀ c : LocalClient, (c.disconnect).2 = Except.ok ()) ∧
    (∀ (c : LocalClient) (d : Nat), (c.try_update d).2 = Except.ok ()) ∧
    (∀ (c : LocalClient) (buf : List Nat),
        (c.send buf).2 = Except.ok ()) ∧
    (∀ c : LocalClient, (c.recv).2 = none) := by
  refine ⟨fun i => rfl, ?_, ?_, ?_, fun c => rfl, fun c => rfl,
          fun c d => rfl, fun c buf => rfl, fun c => rfl⟩
  · intro i ops
    rw [LocalClient.state, runLocal_is_connected ops (LocalClient.new i)]
    cases h : lastConnDisc ops with
    | none => simp [LocalClient.new]
    | some b => cases b <;> simp
  · intro i ops
    rw [LocalClient.state]
    cases (runLocal (LocalClient.new i) ops).is_connected <;> simp
  · intro i ops
    rw [LocalClient.client_id, runLocal_id ops (LocalClient.new i)]
    rfl

theorem C10_witness :
    (runLocal (LocalClient.new 7) [LOp.connect]).state =
      NetworkingState.Connected :=
  (C10_local_client_behavior.2.1 7 [LOp.connect]).mpr rfl

/-- Modelled from the spec: run mode (§6, `mode` configuration;
`shared/config.rs` is not under `src/`). -/
inductive Mode where
  | Client
  | Server
  | HostServer
  deriving Repr, DecidableEq

/-- Modelled from the spec/source usage: the client transport
configuration (`NetConfig` in `connection/client.rs` is not under `src/`);
a netcode transport (opaque token) or the in-process local client. -/
inductive NetConfig where
  | Netcode (token : Nat)
  | Local (id : Nat)
  deriving Repr, DecidableEq

/-- Modelled from the spec/source usage: the `ClientConnection` resource
wrapping the chosen `NetClient` implementation; the netcode client's
internal state machine is abstracted to its reported `NetworkingState`
(Disconnected on build, Connecting after `connect`). -/
inductive ClientConnection where
  | localClient (c : LocalClient)
  | netcodeClient (token : Nat) (st : NetworkingState)
  deriving Repr, DecidableEq

/-- `NetConfig::build_client`: construct the `NetClient` for the
configured transport, initially disconnected. -/
def NetConfig.build_client : NetConfig → ClientConnection
  | NetConfig.Netcode token =>
      ClientConnection.netcodeClient token NetworkingState.Disconnected
  | NetConfig.Local id =>
      ClientConnection.localClient (LocalClient.new id)

def ClientConnection.connect : ClientConnection → ClientConnection
  | ClientConnection.localClient c =>
      ClientConnection.localClient (c.connect).1
  | ClientConnection.netcodeClient t _ =>
      ClientConnection.netcodeClient t NetworkingState.Connecting

def ClientConnection.disconnect : ClientConnection → ClientConnection
  | ClientConnection.localClient c =>
      ClientConnection.localClient (c.disconnect).1
  | ClientConnection.netcodeClient t _ =>
      ClientConnection.netcodeClient t NetworkingState.Disconnected

def ClientConnection.state : ClientConnection → NetworkingState
  | ClientConnection.localClient c => c.state
  | ClientConnection.netcodeClient _ st => st

/-- The `ClientConfig` fields consumed by `rebuild_client_connection`
(networking.rs lines 443-469); the packet/sync/ping sub-configs are
opaque values. -/
structure ClientConfig where
  mode : Mode
  net : NetConfig
  packet : Nat
  sync : Nat
  ping : Nat
  input_delay_ticks : Nat
  deriving Repr, DecidableEq

/-- Modelled from the spec/source usage: `ConnectionManager::new`
(`client/connection.rs` is not under `src/`) builds fresh per-connection
state from the given configs: sync not yet achieved, message counters at
zero. -/
structure ConnectionManager where
  packet_config : Nat
  sync_config : Nat
  ping_config : Nat
  input_delay_ticks : Nat
  synced : Bool
  message_counter : Nat
  deriving Repr, DecidableEq

def ConnectionManager.new (cfg : ClientConfig) : ConnectionManager :=
  { packet_config := cfg.packet
    sync_config := cfg.sync
    ping_config := cfg.ping
    input_delay_ticks := cfg.input_delay_ticks
    synced := false
    message_counter := 0 }

/-- A world entity as seen by the `on_disconnect` query: its id and
whether it carries the `Replicated`, `Predicted` or `Interpolated`
marker component. -/
structure EntityRec where
  eid : Nat
  replicated : Bool
  predicted : Bool
  interpolated : Bool
  deriving Repr, DecidableEq

/-- The `Or<(With<Replicated>, With<Predicted>, With<Interpolated>)>`
query filter of `on_disconnect` (networking.rs line 370). -/
def EntityRec.received_marker (e : EntityRec) : Bool :=
  e.replicated || e.predicted || e.interpolated

/-- The slice of the Bevy `World` touched by the client networking
systems: config and connection resources, the entities, a count of
emitted `DisconnectEvent`s, and the pending `NextState`. -/
structure ClientWorld where
  config : ClientConfig
  connection_manager : ConnectionManager
  client_connection : ClientConnection
  entities : List EntityRec
  disconnect_events : Nat
  next_state : Option NetworkingState
  deriving Repr, DecidableEq

/-- `despawn_recursive` on the modelled flat world: remove the entity with
the given id (no child hierarchies are modelled). -/
def despawn_recursive (entities : List EntityRec) (eid : Nat) :
    List EntityRec :=
  entities.filter (fun e => e.eid != eid)

/-- `on_disconnect` (networking.rs lines 365-388), registered on
`OnEnter(NetworkingState::Disconnected)` (lines 126-132): despawn every
entity matched by the replication-marker query, reset
`sync_manager.synced` to false, disconnect the netclient again, and send
exactly one `DisconnectEvent` (modelled as an event counter). -/
def on_disconnect (w : ClientWorld) : ClientWorld :=
  let received := w.entities.filter EntityRec.received_marker
  { w with
      entities :=
        received.foldl (fun acc e => despawn_recursive acc e.eid) w.entities
      connection_manager := { w.connection_manager with synced := false }
      client_connection := w.client_connection.disconnect
      disconnect_events := w.disconnect_events + 1 }

theorem mem_foldl_despawn (l : List EntityRec) :
    ∀ (acc : List EntityRec) (x : EntityRec),
      x ∈ l.foldl (fun acc e => despawn_recursive acc e.eid) acc ↔
        (x ∈ acc ∧ ∀ r ∈ l, x.eid ≠ r.eid) := by
  induction l with
  | nil => intro acc x; simp
  | cons e rest ih =>
      intro acc x
      rw [List.foldl_cons, ih]
      constructor
      · rintro ⟨hx, hall⟩
        simp only [despawn_recursive, List.mem_filter] at hx
        refine ⟨hx.1, ?_⟩
        intro r hr
        rcases List.mem_cons.mp hr with rfl | hr2
        · simpa using hx.2
        · exact hall r hr2
      · rintro ⟨hx, hall⟩
        refine ⟨?_, fun r hr => hall r (List.mem_cons_of_mem _ hr)⟩
        simp only [despawn_recursive, List.mem_filter]
        exact ⟨hx, by simpa using hall e (List.mem_cons_self _ _)⟩

/-- Claim C6: whenever the client enters the `Disconnected` networking
state, the `on_disconnect` system despawns every entity received through
replication (every entity carrying a `Replicated`, `Predicted` or
`Interpolated` marker), resets the sync manager's `synced` flag to false,
and emits exactly one `DisconnectEvent`. -/
theorem C6_on_disconnect_cleanup (w : ClientWorld) :
    (∀ e ∈ w.entities, e.received_marker = true →
        e ∉ (on_disconnect w).entities) ∧
    (on_disconnect w).connection_manager.synced = false ∧
    (on_disconnect w).disconnect_events = w.disconnect_events + 1 := by
  refine ⟨?_, rfl, rfl⟩
  intro e he hmark hmem
  have h := (mem_foldl_despawn
    (w.entities.filter EntityRec.received_marker) w.entities e).mp hmem
  exact h.2 e (List.mem_filter.mpr ⟨he, hmark⟩) rfl

def c6w : ClientWorld :=
  { config :=
      { mode := Mode.Client
        net := NetConfig.Local 1
        packet := 0
        sync := 0
        ping := 0
        input_delay_ticks := 0 }
    connection_manager :=
      { packet_config := 0
        sync_config := 0
        ping_config := 0
        input_delay_ticks := 0
        synced := true
        message_counter := 3 }
    client_connection := ClientConnection.localClient ⟨1, true⟩
    entities := [⟨0, true, false, false⟩, ⟨1, false, false, false⟩]
    disconnect_events := 0
    next_state := none }

theorem C6_witness :
    ((⟨0, true, false, false⟩ : EntityRec) ∉ (on_disconnect c6w).entities) ∧
    (on_disconnect c6w).connection_manager.synced = false :=
  ⟨(C6_on_disconnect_cleanup c6w).1 ⟨0, true, false, false⟩ (by decide)
     (by decide),
   (C6_on_disconnect_cleanup c6w).2.1⟩

/-- `rebuild_client_connection` (networking.rs lines 443-469): insert a
fresh `ConnectionManager` built from the latest `ClientConfig` (resetting
sync state and message counters) and replace the `ClientConnection`
resource with one built from the latest config. -/
def rebuild_client_connection (w : ClientWorld) : ClientWorld :=
  { w with
      connection_manager := ConnectionManager.new w.config
      client_connection := w.config.net.build_client }

/-- The `connect` system (networking.rs lines 478-508), registered on
`OnEnter(NetworkingState::Connecting)` (line 114): run
`rebuild_client_connection`, then call `connect` on the new
`ClientConnection`; in HostServer mode with an immediately-connected
connection, set the next networking state straight to `Connected`. -/
def connect (w : ClientWorld) : ClientWorld :=
  let w1 := rebuild_client_connection w
  let w2 := { w1 with client_connection := w1.client_connection.connect }
  if w2.client_connection.state = NetworkingState.Connected ∧
      w2.config.mode = Mode.HostServer then
    { w2 with next_state := some NetworkingState.Connected }
  else w2

/-- Claim C7: every `connect()` request builds a fresh connection with the
current configuration before initiating the transport connection: the
`connect` system (run on entering `Connecting`) first runs
`rebuild_client_connection` — inserting a new `ConnectionManager` (sync
flag reset, message counters zeroed) and replacing the `ClientConnection`
with one built from the latest `ClientConfig` — and only then calls
`connect` on that new `ClientConnection`. -/
theorem C7_connect_rebuilds_fresh_connection (w : ClientWorld) :
    (connect w).client_connection = (w.config.net.build_client).connect ∧
    (connect w).connection_manager = ConnectionManager.new w.config ∧
    (connect w).connection_manager.synced = false ∧
    (connect w).connection_manager.message_counter = 0 := by
  simp only [connect, rebuild_client_connection]
  split
  · exact ⟨rfl, rfl, rfl, rfl⟩
  · exact ⟨rfl, rfl, rfl, rfl⟩
